import Mathlib

/-!
Verification of the dusk scan engine and trend comparator
(`src/dusk/scanner.py`, `src/dusk/db.py`, `src/dusk/models.py`).

The Python code is shallowly embedded: Python `int` is `Int`, Python
`float` arithmetic on the trend percentage is modelled as exact rational
arithmetic (`ℚ`), and every subordinate-process interaction is abstracted
as an explicit outcome value (`RunResult` / `PopenResult` /
`DiskutilResult`) passed to the embedded function, so that each embedded
function is a pure function of its inputs and of its environment.
A Python function that can raise an uncaught exception is embedded with
result type `Except Unit _`.
-/

namespace Dusk

/-! ## Python string primitives -/

/-- Characters stripped by Python's `str.strip()` with no argument. -/
def pyIsSpace (c : Char) : Bool :=
  c == ' ' || c == '\t' || c == '\n' || c == '\r' || c == '\x0b' || c == '\x0c'

/-- Python `s.strip()`: remove leading and trailing whitespace. -/
def pyStrip (s : String) : String :=
  String.mk (((s.data.dropWhile pyIsSpace).reverse.dropWhile pyIsSpace).reverse)

/-- Split a character list on every occurrence of `c` (like Python
`str.split(c)`, which returns one group even for the empty string). -/
def splitOnChar (c : Char) : List Char → List (List Char)
  | [] => [[]]
  | x :: xs =>
    if x == c then [] :: splitOnChar c xs
    else
      match splitOnChar c xs with
      | [] => [[x]]
      | g :: gs => (x :: g) :: gs

/-- Python `str.splitlines()`, restricted to `\n` line boundaries (the
subordinate processes are run in text mode and emit `\n`-terminated
lines): no group for a trailing newline, and `""` yields `[]`. -/
def splitlines (s : String) : List String :=
  if s.data = [] then []
  else
    let parts := splitOnChar '\n' s.data
    let parts := if parts.getLast? = some [] then parts.dropLast else parts
    parts.map String.mk

/-- Python `line.split("\t", 1)`: at most one split, on the first tab. -/
def splitTab1 (s : String) : List String :=
  match splitOnChar '\t' s.data with
  | [] => [s]
  | [x] => [String.mk x]
  | x :: rest => [String.mk x, String.mk (List.intercalate ['\t'] rest)]

/-- Decimal value of a digit list. -/
def digitsToNat (cs : List Char) : Nat :=
  cs.foldl (fun a c => a * 10 + (c.toNat - 48)) 0

/-- A nonempty all-digit character list parsed as a nonnegative integer. -/
def parseUnsigned (cs : List Char) : Option Int :=
  if cs ≠ [] ∧ cs.all (fun c => c.isDigit) then some (digitsToNat cs) else none

/-- Python `int(s)` on decimal literals: surrounding whitespace stripped,
one optional sign, then digits (underscore digit separators are not
modelled; `du` emits plain decimal sizes). `none` models `ValueError`. -/
def pyInt (s : String) : Option Int :=
  match (pyStrip s).data with
  | '-' :: rest => (parseUnsigned rest).map (fun n => -n)
  | '+' :: rest => parseUnsigned rest
  | cs => parseUnsigned cs

/-- Python `s.rstrip("/")`: remove all trailing slashes. -/
def rstripSlashes (s : String) : String :=
  String.mk ((s.data.reverse.dropWhile (fun c => c == '/')).reverse)

/-- Python `os.path.basename(s)`: everything after the last slash. -/
def basename (s : String) : String :=
  String.mk ((s.data.reverse.takeWhile (fun c => c != '/')).reverse)

/-- One step of CPython `posixpath.normpath`'s component loop. -/
def normpathStep (initialSlashes : Nat) (acc : List (List Char))
    (comp : List Char) : List (List Char) :=
  if comp = [] ∨ comp = ['.'] then acc
  else if comp ≠ ['.', '.'] ∨ (initialSlashes = 0 ∧ acc = []) ∨
      acc.getLast? = some ['.', '.'] then acc ++ [comp]
  else if acc ≠ [] then acc.dropLast
  else acc

/-- Python `os.path.normpath` for POSIX paths, following CPython's
`posixpath.normpath`: collapse repeated separators and `.` components,
resolve `..` lexically, keep the double-slash special case. -/
def normpath (path : String) : String :=
  if path.data = [] then "."
  else
    let initialSlashes : Nat :=
      match path.data with
      | '/' :: '/' :: '/' :: _ => 1
      | '/' :: '/' :: _ => 2
      | '/' :: _ => 1
      | _ => 0
    let comps := splitOnChar '/' path.data
    let newComps := comps.foldl (normpathStep initialSlashes) []
    let joined := List.replicate initialSlashes '/' ++
      List.intercalate ['/'] newComps
    if joined = [] then "." else String.mk joined

/-- Python `os.path.expanduser` for the plain `~` form (the `~user` form
is not modelled; the scanner only ever receives `~` or explicit paths). -/
def expanduser (home path : String) : String :=
  if path = "~" then home
  else if path.startsWith "~/" then home ++ path.drop 1
  else path

/-- Python `l[:k]` slicing: a nonnegative bound takes a prefix, a
negative bound counts from the end. -/
def pySliceTo (k : Int) (l : List α) : List α :=
  if 0 ≤ k then l.take k.toNat else l.take ((l.length + k).toNat)

/-! ## Sorting (Python `list.sort(key=…, reverse=True)`) -/

/-- Insert into a list kept in non-increasing `key` order. -/
def insertDesc (key : α → Int) (x : α) : List α → List α
  | [] => [x]
  | y :: ys => if key y < key x then x :: y :: ys else y :: insertDesc key x ys

/-- Insertion sort into non-increasing `key` order, modelling Python
`l.sort(key=key, reverse=True)` (tie order is irrelevant to every
property proved below). -/
def sortDesc (key : α → Int) (l : List α) : List α :=
  l.foldr (insertDesc key) []

/-! ## Data model (`models.py`) -/

/-- Embeds `models.DiskInfo`. -/
structure DiskInfo where
  total_bytes : Int
  used_bytes : Int
  free_bytes : Int
  available_bytes : Int
  volume_name : String := ""
  fs_type : String := ""
  apfs_container : String := ""
  deriving DecidableEq, Repr

/-- Embeds `models.DirEntry`. -/
structure DirEntry where
  path : String
  size_bytes : Int
  file_count : Option Int := none
  deriving DecidableEq, Repr

/-- Embeds `models.FileEntry`. -/
structure FileEntry where
  path : String
  size_bytes : Int
  deriving DecidableEq, Repr

/-- Embeds `models.ScanResult`. The wall-clock `timestamp` field is omitted:
no compared behaviour reads it. -/
structure ScanResult where
  scan_id : Option Int
  root_path : String
  disk_info : DiskInfo
  directories : List DirEntry := []
  large_files : List FileEntry := []
  total_scanned_bytes : Int := 0
  deriving DecidableEq, Repr

/-- Embeds `models.TrendEntry`; `delta_percent` is exact rational arithmetic in
place of Python float arithmetic. -/
structure TrendEntry where
  path : String
  current_bytes : Int
  previous_bytes : Int
  delta_bytes : Int
  delta_percent : ℚ
  deriving DecidableEq, Repr

/-- Embeds `models.ScanComparison`. -/
structure ScanComparison where
  current : ScanResult
  previous : ScanResult
  trends : List TrendEntry := []
  overall_delta : Int := 0
  new_dirs : List DirEntry := []
  removed_dirs : List DirEntry := []
  deriving DecidableEq, Repr

/-! ## Subordinate-process environments -/

/-- Outcome of a `subprocess.run(..., capture_output=True, timeout=…)`
call: normal completion with a return code and captured stdout, a
`TimeoutExpired` exception, or any other exception (such as
`FileNotFoundError` when the tool is absent). -/
inductive RunResult where
  | completed (returncode : Int) (stdout : String)
  | timedOut
  | failed
  deriving DecidableEq, Repr

/-- Outcome of the `subprocess.Popen`/`communicate(timeout=300)` pair in
`scan_directories`: completion with full stdout, `TimeoutExpired` with
the partial stdout readable at that point, or any other exception. -/
inductive PopenResult where
  | completed (stdout : String)
  | timedOut (partialOut : String)
  | failed
  deriving DecidableEq, Repr

/-- The fields `diskutil info -plist` output is read for, each `none`
when the key is missing (Python `plist.get(key, "")`). -/
structure DiskutilPlist where
  volumeName : Option String := none
  fsType : Option String := none
  apfsContainer : Option String := none
  deriving DecidableEq, Repr

/-- Outcome of the `diskutil` enrichment call in `get_disk_info`:
completion carries the return code and the parsed plist (`none` when
`plistlib.loads` raises on malformed output). -/
inductive DiskutilResult where
  | completed (returncode : Int) (plist : Option DiskutilPlist)
  | timedOut
  | failed
  deriving DecidableEq, Repr

/-- The four `os.statvfs` fields `get_disk_info` reads (unsigned in the
underlying C struct, hence `Nat`). The upward walk of `_get_mount_point`
is abstracted: the record is the statistics of the resolved mount. -/
structure Statvfs where
  f_frsize : Nat
  f_blocks : Nat
  f_bfree : Nat
  f_bavail : Nat
  deriving DecidableEq, Repr

/-! ## `scanner.get_disk_info` -/

/-- Embeds `scanner.get_disk_info`: capacity from `statvfs` block counts, and
best-effort metadata from `diskutil` — populated only on a zero return
code with parseable plist output, empty strings otherwise. -/
def get_disk_info (st : Statvfs) (dk : DiskutilResult) : DiskInfo :=
  let total : Int := (st.f_frsize * st.f_blocks : Nat)
  let free : Int := (st.f_frsize * st.f_bfree : Nat)
  let available : Int := (st.f_frsize * st.f_bavail : Nat)
  let used : Int := total - free
  let meta : String × String × String :=
    match dk with
    | .completed rc pl? =>
      if rc = 0 then
        match pl? with
        | some pl =>
          (pl.volumeName.getD "", pl.fsType.getD "", pl.apfsContainer.getD "")
        | none => ("", "", "")
      else ("", "", "")
    | _ => ("", "", "")
  { total_bytes := total
    used_bytes := used
    free_bytes := free
    available_bytes := available
    volume_name := meta.1
    fs_type := meta.2.1
    apfs_container := meta.2.2 }

/-! ## `scanner.scan_directories` -/

/-- One line of `du` output: split on the first tab, parse the size as
kibibytes, skip unparseable rows and the root itself. -/
def duLineEntry (root line : String) : Option DirEntry :=
  match splitTab1 line with
  | [szStr, path] =>
    match pyInt szStr with
    | none => none
    | some size_kb =>
      if normpath path = normpath root then none
      else some { path := path, size_bytes := size_kb * 1024 }
  | _ => none

/-- The line loop of `scan_directories` over captured `du` stdout. -/
def parseDuEntries (root stdout : String) : List DirEntry :=
  (splitlines (pyStrip stdout)).filterMap (duLineEntry root)

/-- Embeds `scanner.scan_directories`: parse `du -x -d<depth> -k <root>` output
(full output on completion, the salvaged partial output on timeout, `[]`
on any other exception), sort by size descending, truncate to `top_n`.
`depth` only shapes the subordinate command line. -/
def scan_directories (root : String) (depth top_n : Int)
    (res : PopenResult) : List DirEntry :=
  match res with
  | .failed => []
  | .completed stdout =>
    pySliceTo top_n (sortDesc (fun e => e.size_bytes) (parseDuEntries root stdout))
  | .timedOut partialOut =>
    pySliceTo top_n (sortDesc (fun e => e.size_bytes) (parseDuEntries root partialOut))

/-! ## `scanner.find_large_files` -/

/-- The re-stat loop shared by both finder tiers: each nonempty stdout
line is re-stated via `os.path.getsize` (abstracted as `getsize`, with
`none` modelling `OSError` for a vanished path, which drops the line). -/
def statPaths (getsize : String → Option Int) (stdout : String) :
    List FileEntry :=
  (splitlines (pyStrip stdout)).filterMap fun p =>
    if p = "" then none
    else (getsize p).map (fun sz => { path := p, size_bytes := sz })

/-- Embeds `scanner._find_large_files_mdfind`: `none` (Python `None`) on
timeout, any other exception, or a non-zero return code — the
"unavailable" signal — otherwise the re-stated result list. `root` and
`min_bytes` only shape the subordinate command line. -/
def find_large_files_mdfind (root : String) (min_bytes : Int)
    (res : RunResult) (getsize : String → Option Int) :
    Option (List FileEntry) :=
  match res with
  | .timedOut => none
  | .failed => none
  | .completed rc stdout =>
    if rc ≠ 0 then none else some (statPaths getsize stdout)

/-- Embeds `scanner._find_large_files_find`: `[]` on `TimeoutExpired`, the
re-stated result list on completion (the return code is not inspected).
Only `TimeoutExpired` is caught, so any other exception — e.g.
`FileNotFoundError` when the `find` binary is absent — propagates,
modelled as `Except.error ()`. -/
def find_large_files_find (root : String) (min_size_mb : Int)
    (res : RunResult) (getsize : String → Option Int) :
    Except Unit (List FileEntry) :=
  match res with
  | .timedOut => .ok []
  | .failed => .error ()
  | .completed _ stdout => .ok (statPaths getsize stdout)

/-- Embeds `scanner.find_large_files`: fast `mdfind` tier, falling back to the
`find` tier exactly when the fast tier reports unavailable (`None`);
the resulting list is sorted by size descending and truncated. -/
def find_large_files (root : String) (min_size_mb top_n : Int)
    (mdRes findRes : RunResult) (getsize : String → Option Int) :
    Except Unit (List FileEntry) :=
  let min_bytes := min_size_mb * 1024 * 1024
  match find_large_files_mdfind root min_bytes mdRes getsize with
  | some files =>
    .ok (pySliceTo top_n (sortDesc (fun f => f.size_bytes) files))
  | none =>
    match find_large_files_find root min_size_mb findRes getsize with
    | .error e => .error e
    | .ok files =>
      .ok (pySliceTo top_n (sortDesc (fun f => f.size_bytes) files))

/-! ## `scanner.scan` -/

/-- Embeds `scanner.scan`: expand the root, run the three probes (the thread
pool introduces no shared state, so the concurrent join is embedded as
sequential composition of the three pure probe functions over their
independent environments), total the directory sizes, and assemble the
snapshot. An exception escaping a probe is re-raised by
`Future.result()`, modelled by `Except.error` propagation. -/
def scan (home root : String) (depth top_n file_count min_file_size_mb : Int)
    (st : Statvfs) (dk : DiskutilResult) (duRes : PopenResult)
    (mdRes findRes : RunResult) (getsize : String → Option Int) :
    Except Unit ScanResult :=
  let root := expanduser home root
  let disk_info := get_disk_info st dk
  let directories := scan_directories root depth top_n duRes
  match find_large_files root min_file_size_mb file_count mdRes findRes getsize with
  | .error e => .error e
  | .ok large_files =>
    .ok { scan_id := none
          root_path := root
          disk_info := disk_info
          directories := directories
          large_files := large_files
          total_scanned_bytes := (directories.map (fun d => d.size_bytes)).sum }

/-! ## `db.compare_scans`

The Python dict comprehension `{basename(d.path.rstrip("/")): d for d in
dirs}` is embedded as an association list built by insert-with-overwrite
(`dictInsert`), the exact insertion behaviour of a Python dict: an
existing key keeps its position and gets the new value, a fresh key is
appended. `set(cur.keys()) | set(prev.keys())` has unspecified iteration
order in Python; it is embedded as current keys first, then the previous
keys not already present — every property proved below is independent of
this order (trends are sorted afterwards; the other results are only
ever inspected up to membership). -/

/-- The matching key of a directory entry:
`os.path.basename(d.path.rstrip("/"))`. -/
def dirKey (d : DirEntry) : String := basename (rstripSlashes d.path)

/-- The matching key a trend entry was produced under (its path is the
current snapshot's entry path). -/
def trendKey (t : TrendEntry) : String := basename (rstripSlashes t.path)

/-- A Python dict from `String` to `DirEntry` as an association list in
insertion order with unique keys. -/
abbrev DirDict := List (String × DirEntry)

/-- Python dict assignment `m[k] = v`: overwrite in place if the key
exists, append otherwise. -/
def dictInsert (m : DirDict) (k : String) (v : DirEntry) : DirDict :=
  if m.any (fun p => p.1 == k) then
    m.map (fun p => if p.1 == k then (p.1, v) else p)
  else m ++ [(k, v)]

/-- Python dict lookup `m.get(k)`. -/
def dictGet (m : DirDict) (k : String) : Option DirEntry :=
  (m.find? (fun p => p.1 == k)).map (fun p => p.2)

/-- Python dict key view `m.keys()`. -/
def dictKeys (m : DirDict) : List String := m.map (fun p => p.1)

/-- The dict comprehension of `compare_scans` over one snapshot's
directory list. -/
def buildDirMap (ds : List DirEntry) : DirDict :=
  ds.foldl (fun m d => dictInsert m (dirKey d) d) []

/-- The key union `set(current_dirs.keys()) | set(previous_dirs.keys())`
(see the section comment about iteration order). -/
def allKeys (cd pd : DirDict) : List String :=
  dictKeys cd ++ (dictKeys pd).filter (fun k => !((dictKeys cd).contains k))

/-- The trend entry built for a key present in both snapshots:
`delta = cur - prev` and `pct = delta / prev * 100` unless `prev` is
zero (Python falsy), in which case `0.0`. -/
def mkTrend (cur prev : DirEntry) : TrendEntry :=
  { path := cur.path
    current_bytes := cur.size_bytes
    previous_bytes := prev.size_bytes
    delta_bytes := cur.size_bytes - prev.size_bytes
    delta_percent :=
      if prev.size_bytes = 0 then 0
      else ((cur.size_bytes - prev.size_bytes : Int) : ℚ) / (prev.size_bytes : ℚ) * 100 }

/-- The `cur and prev` branch of the key loop. -/
def trendOf (cd pd : DirDict) (k : String) : Option TrendEntry :=
  match dictGet cd k, dictGet pd k with
  | some cur, some prev => some (mkTrend cur prev)
  | _, _ => none

/-- The `cur and not prev` branch of the key loop. -/
def newOf (cd pd : DirDict) (k : String) : Option DirEntry :=
  match dictGet cd k, dictGet pd k with
  | some cur, none => some cur
  | _, _ => none

/-- The `prev and not cur` branch of the key loop. -/
def removedOf (cd pd : DirDict) (k : String) : Option DirEntry :=
  match dictGet cd k, dictGet pd k with
  | none, some prev => some prev
  | _, _ => none

/-- Embeds `db.compare_scans`: build the two base-name maps, loop over the key
union accumulating trends / new / removed (embedded as three
`filterMap`s over the same key list, which produce exactly the three
lists the single Python loop appends to), sort trends by descending
absolute delta, and take the aggregate delta from
`total_scanned_bytes`. -/
def compare_scans (current previous : ScanResult) : ScanComparison :=
  { current := current
    previous := previous
    trends := sortDesc (fun t => |t.delta_bytes|)
      ((allKeys (buildDirMap current.directories) (buildDirMap previous.directories)).filterMap
        (trendOf (buildDirMap current.directories) (buildDirMap previous.directories)))
    overall_delta := current.total_scanned_bytes - previous.total_scanned_bytes
    new_dirs :=
      (allKeys (buildDirMap current.directories) (buildDirMap previous.directories)).filterMap
        (newOf (buildDirMap current.directories) (buildDirMap previous.directories))
    removed_dirs :=
      (allKeys (buildDirMap current.directories) (buildDirMap previous.directories)).filterMap
        (removedOf (buildDirMap current.directories) (buildDirMap previous.directories)) }

/-- There is a directory entry in `ds` whose matching key is `k`. -/
def hasDirKey (ds : List DirEntry) (k : String) : Prop :=
  ∃ d ∈ ds, dirKey d = k

instance (ds : List DirEntry) (k : String) : Decidable (hasDirKey ds k) :=
  inferInstanceAs (Decidable (∃ d ∈ ds, dirKey d = k))

/-! ## Helper lemmas: `Option.or` -/

theorem some_or (a : α) (o : Option α) : (some a).or o = some a := rfl

theorem none_or (o : Option α) : (Option.none).or o = o := rfl

theorem or_none (o : Option α) : o.or none = o := by cases o <;> rfl

theorem or_assoc' (a b c : Option α) : (a.or b).or c = a.or (b.or c) := by
  cases a <;> rfl

/-! ## Helper lemmas: sorting and slicing -/

theorem sortDesc_nil (key : α → Int) : sortDesc key [] = [] := rfl

theorem sortDesc_cons (key : α → Int) (y : α) (ys : List α) :
    sortDesc key (y :: ys) = insertDesc key y (sortDesc key ys) := rfl

theorem mem_insertDesc {key : α → Int} {x a : α} {l : List α} :
    a ∈ insertDesc key x l ↔ a = x ∨ a ∈ l := by
  induction l with
  | nil => simp [insertDesc]
  | cons y ys ih =>
    simp only [insertDesc]
    split
    · simp [List.mem_cons]
    · simp only [List.mem_cons, ih]
      tauto

theorem mem_sortDesc {key : α → Int} {l : List α} {a : α} :
    a ∈ sortDesc key l ↔ a ∈ l := by
  induction l with
  | nil => simp [sortDesc_nil]
  | cons y ys ih => rw [sortDesc_cons]; simp [mem_insertDesc, ih]

theorem pairwise_insertDesc {key : α → Int} {x : α} {l : List α}
    (h : l.Pairwise (fun a b => key b ≤ key a)) :
    (insertDesc key x l).Pairwise (fun a b => key b ≤ key a) := by
  induction l with
  | nil => simp [insertDesc]
  | cons y ys ih =>
    rw [List.pairwise_cons] at h
    obtain ⟨hy, hys⟩ := h
    simp only [insertDesc]
    split
    · rename_i hlt
      exact List.Pairwise.cons
        (fun b hb => by
          rcases List.mem_cons.mp hb with rfl | hb
          · exact le_of_lt hlt
          · exact le_trans (hy b hb) (le_of_lt hlt))
        (List.Pairwise.cons hy hys)
    · rename_i hge
      push_neg at hge
      exact List.Pairwise.cons
        (fun b hb => by
          rcases mem_insertDesc.mp hb with rfl | hb
          · exact hge
          · exact hy b hb)
        (ih hys)

theorem pairwise_sortDesc (key : α → Int) (l : List α) :
    (sortDesc key l).Pairwise (fun a b => key b ≤ key a) := by
  induction l with
  | nil => simp [sortDesc_nil]
  | cons y ys ih => rw [sortDesc_cons]; exact pairwise_insertDesc ih

theorem pySliceTo_eq_take (k : Int) (l : List α) :
    ∃ n, pySliceTo k l = l.take n := by
  unfold pySliceTo
  split
  · exact ⟨k.toNat, rfl⟩
  · exact ⟨(l.length + k).toNat, rfl⟩

theorem pairwise_pySliceTo {R : α → α → Prop} (k : Int) {l : List α}
    (h : l.Pairwise R) : (pySliceTo k l).Pairwise R := by
  obtain ⟨n, hn⟩ := pySliceTo_eq_take k l
  rw [hn]
  exact h.sublist (List.take_sublist n l)

theorem length_pySliceTo_le {k : Int} (hk : 0 ≤ k) (l : List α) :
    ((pySliceTo k l).length : Int) ≤ k := by
  unfold pySliceTo
  rw [if_pos hk]
  calc ((l.take k.toNat).length : Int) ≤ (k.toNat : Int) := by
        exact_mod_cast List.length_take_le _ _
    _ = k := Int.toNat_of_nonneg hk

theorem getLast?_cons_or (l : List α) : ∀ a : α,
    (a :: l).getLast? = l.getLast?.or (some a) := by
  induction l with
  | nil => intro a; rfl
  | cons b t ih =>
    intro a
    rw [List.getLast?_cons_cons, ih b, or_assoc', some_or]

/-! ## Helper lemmas: the Python dict embedding -/

theorem dictGet_nil (k : String) : dictGet [] k = none := rfl

theorem dictGet_cons (p : String × DirEntry) (m : DirDict) (k : String) :
    dictGet (p :: m) k = if p.1 = k then some p.2 else dictGet m k := by
  unfold dictGet
  by_cases h : p.1 = k
  · rw [List.find?_cons_of_pos _ (by simpa using h), if_pos h]
    rfl
  · rw [List.find?_cons_of_neg _ (by simpa using h), if_neg h]

theorem dictGet_map_overwrite (m : DirDict) (k : String) (v : DirEntry)
    (k' : String) :
    dictGet (m.map (fun p => if p.1 == k then (p.1, v) else p)) k' =
      if k' = k then (dictGet m k).map (fun _ => v) else dictGet m k' := by
  induction m with
  | nil => by_cases h : k' = k <;> simp [dictGet_nil, h]
  | cons p m ih =>
    have hfst : (if p.1 == k then (p.1, v) else p).1 = p.1 := by
      split <;> rfl
    have hsnd : (if p.1 == k then (p.1, v) else p).2 =
        if p.1 = k then v else p.2 := by
      split <;> simp_all
    rw [List.map_cons, dictGet_cons, hfst, hsnd, dictGet_cons, dictGet_cons, ih]
    by_cases h1 : p.1 = k' <;> by_cases h2 : k' = k <;>
      simp_all [h1, h2]

theorem dictGet_append_single (m : DirDict) (k : String) (v : DirEntry)
    (k' : String) :
    dictGet (m ++ [(k, v)]) k' =
      (dictGet m k').or (if k' = k then some v else none) := by
  induction m with
  | nil =>
    simp only [List.nil_append, dictGet_nil, none_or, dictGet_cons]
    by_cases h : k' = k
    · subst h; simp
    · rw [if_neg (fun hc => h hc.symm), if_neg h]
  | cons p m ih =>
    rw [List.cons_append, dictGet_cons, dictGet_cons, ih]
    by_cases h : p.1 = k' <;> simp [h, some_or]

theorem dictGet_dictInsert (m : DirDict) (k : String) (v : DirEntry)
    (k' : String) :
    dictGet (dictInsert m k v) k' = if k' = k then some v else dictGet m k' := by
  unfold dictInsert
  by_cases hany : m.any (fun p => p.1 == k)
  · rw [if_pos hany, dictGet_map_overwrite]
    by_cases hk : k' = k
    · rw [if_pos hk, if_pos hk]
      obtain ⟨p, hp, hpk⟩ := List.any_eq_true.mp hany
      have hne : dictGet m k ≠ none := by
        unfold dictGet
        intro hcon
        rw [Option.map_eq_none'] at hcon
        exact absurd hpk ((by simpa using List.find?_eq_none.mp hcon p hp))
      obtain ⟨w, hw⟩ := Option.ne_none_iff_exists'.mp hne
      rw [hw]
      rfl
    · rw [if_neg hk, if_neg hk]
  · rw [if_neg hany, dictGet_append_single]
    have hnone : dictGet m k = none := by
      unfold dictGet
      rw [List.find?_eq_none.mpr]
      · rfl
      · intro p hp hcon
        exact hany (List.any_eq_true.mpr ⟨p, hp, hcon⟩)
    by_cases hk : k' = k
    · subst hk
      rw [hnone, none_or, if_pos rfl]
    · rw [if_neg hk, if_neg hk, or_none]

theorem mem_dictKeys_dictInsert (m : DirDict) (k : String) (v : DirEntry)
    (k' : String) :
    k' ∈ dictKeys (dictInsert m k v) ↔ k' ∈ dictKeys m ∨ k' = k := by
  unfold dictInsert
  by_cases hany : m.any (fun p => p.1 == k)
  · rw [if_pos hany]
    have hkeys : dictKeys (m.map (fun p => if p.1 == k then (p.1, v) else p)) =
        dictKeys m := by
      unfold dictKeys
      rw [List.map_map]
      exact List.map_congr_left (fun p _ => by simp only [Function.comp]; split <;> rfl)
    rw [hkeys]
    obtain ⟨p, hp, hpk⟩ := List.any_eq_true.mp hany
    have hk : k ∈ dictKeys m :=
      List.mem_map.mpr ⟨p, hp, by simpa using hpk⟩
    constructor
    · exact Or.inl
    · rintro (h | rfl)
      · exact h
      · exact hk
  · rw [if_neg hany]
    unfold dictKeys
    simp [List.map_append]

theorem dictGet_foldl (ds : List DirEntry) (m : DirDict) (k : String) :
    dictGet (ds.foldl (fun m d => dictInsert m (dirKey d) d) m) k =
      ((ds.filter (fun d => dirKey d == k)).getLast?).or (dictGet m k) := by
  induction ds generalizing m with
  | nil => simp [none_or]
  | cons d ds ih =>
    rw [List.foldl_cons, ih, dictGet_dictInsert]
    by_cases h : dirKey d = k
    · rw [if_pos h.symm, List.filter_cons_of_pos (by simpa using h),
        getLast?_cons_or, or_assoc', some_or]
    · rw [if_neg (fun hc => h hc.symm), List.filter_cons_of_neg (by simpa using h)]

theorem dictGet_buildDirMap (ds : List DirEntry) (k : String) :
    dictGet (buildDirMap ds) k =
      (ds.filter (fun d => dirKey d == k)).getLast? := by
  rw [buildDirMap, dictGet_foldl, dictGet_nil, or_none]

theorem mem_dictKeys_foldl (ds : List DirEntry) (m : DirDict) (k : String) :
    k ∈ dictKeys (ds.foldl (fun m d => dictInsert m (dirKey d) d) m) ↔
      k ∈ dictKeys m ∨ ∃ d ∈ ds, dirKey d = k := by
  induction ds generalizing m with
  | nil => simp
  | cons d ds ih =>
    rw [List.foldl_cons, ih, mem_dictKeys_dictInsert]
    simp only [List.mem_cons]
    constructor
    · rintro ((h | rfl) | ⟨d', hd', hk⟩)
      · exact Or.inl h
      · exact Or.inr ⟨d, Or.inl rfl, rfl⟩
      · exact Or.inr ⟨d', Or.inr hd', hk⟩
    · rintro (h | ⟨d', (rfl | hd'), hk⟩)
      · exact Or.inl (Or.inl h)
      · exact Or.inl (Or.inr hk.symm)
      · exact Or.inr ⟨d', hd', hk⟩

theorem mem_dictKeys_buildDirMap (ds : List DirEntry) (k : String) :
    k ∈ dictKeys (buildDirMap ds) ↔ hasDirKey ds k := by
  rw [buildDirMap, mem_dictKeys_foldl]
  simp [hasDirKey, dictKeys]

theorem dictGet_isSome_iff (ds : List DirEntry) (k : String) :
    (dictGet (buildDirMap ds) k).isSome ↔ hasDirKey ds k := by
  rw [dictGet_buildDirMap, List.getLast?_isSome]
  unfold hasDirKey
  rw [Ne, List.filter_eq_nil_iff]
  push_neg
  simp

theorem dictGet_buildDirMap_some {ds : List DirEntry} {k : String}
    {d : DirEntry} (h : dictGet (buildDirMap ds) k = some d) :
    d ∈ ds ∧ dirKey d = k := by
  rw [dictGet_buildDirMap] at h
  have hd := List.mem_of_mem_getLast? h
  have := List.mem_filter.mp hd
  exact ⟨this.1, by simpa using this.2⟩

theorem dictGet_buildDirMap_none {ds : List DirEntry} {k : String}
    (h : ¬ hasDirKey ds k) : dictGet (buildDirMap ds) k = none := by
  by_contra hne
  obtain ⟨d, hd⟩ := Option.ne_none_iff_exists'.mp hne
  have := (dictGet_isSome_iff ds k).mp (by rw [hd]; rfl)
  exact h this

theorem mem_allKeys {cd pd : DirDict} {k : String} :
    k ∈ allKeys cd pd ↔ k ∈ dictKeys cd ∨ k ∈ dictKeys pd := by
  unfold allKeys
  simp only [List.mem_append, List.mem_filter, Bool.not_eq_true',
    Bool.not_eq_true, List.contains, List.elem_eq_mem]
  constructor
  · rintro (h | ⟨h, _⟩)
    · exact Or.inl h
    · exact Or.inr h
  · rintro (h | h)
    · exact Or.inl h
    · by_cases hc : k ∈ dictKeys cd
      · exact Or.inl hc
      · exact Or.inr ⟨h, by simpa using hc⟩

/-! ## Helper lemmas: the key-loop branches -/

theorem trendOf_eq_some {cd pd : DirDict} {k : String} {t : TrendEntry} :
    trendOf cd pd k = some t ↔
      ∃ cur prev, dictGet cd k = some cur ∧ dictGet pd k = some prev ∧
        t = mkTrend cur prev := by
  unfold trendOf
  cases hc : dictGet cd k <;> cases hp : dictGet pd k <;> simp [eq_comm]

theorem newOf_eq_some {cd pd : DirDict} {k : String} {d : DirEntry} :
    newOf cd pd k = some d ↔ dictGet cd k = some d ∧ dictGet pd k = none := by
  unfold newOf
  cases hc : dictGet cd k <;> cases hp : dictGet pd k <;> simp [eq_comm]

theorem removedOf_eq_some {cd pd : DirDict} {k : String} {d : DirEntry} :
    removedOf cd pd k = some d ↔ dictGet cd k = none ∧ dictGet pd k = some d := by
  unfold removedOf
  cases hc : dictGet cd k <;> cases hp : dictGet pd k <;> simp [eq_comm]

theorem trendKey_mkTrend (cur prev : DirEntry) :
    trendKey (mkTrend cur prev) = dirKey cur := rfl

theorem mem_trends_iff {c p : ScanResult} {t : TrendEntry} :
    t ∈ (compare_scans c p).trends ↔
      ∃ k ∈ allKeys (buildDirMap c.directories) (buildDirMap p.directories),
        trendOf (buildDirMap c.directories) (buildDirMap p.directories) k =
          some t := by
  show t ∈ sortDesc _ _ ↔ _
  rw [mem_sortDesc, List.mem_filterMap]

theorem mem_new_dirs_iff {c p : ScanResult} {d : DirEntry} :
    d ∈ (compare_scans c p).new_dirs ↔
      ∃ k ∈ allKeys (buildDirMap c.directories) (buildDirMap p.directories),
        newOf (buildDirMap c.directories) (buildDirMap p.directories) k =
          some d :=
  List.mem_filterMap

theorem mem_removed_dirs_iff {c p : ScanResult} {d : DirEntry} :
    d ∈ (compare_scans c p).removed_dirs ↔
      ∃ k ∈ allKeys (buildDirMap c.directories) (buildDirMap p.directories),
        removedOf (buildDirMap c.directories) (buildDirMap p.directories) k =
          some d :=
  List.mem_filterMap

/-! ## Claim theorems -/

/-- C1: for every Comparison produced by `compare_scans`, `overall_delta`
equals `current.total_scanned_bytes - previous.total_scanned_bytes`
exactly, computed from the two snapshots' totals and not from the
per-directory matching. -/
theorem compare_scans_overall_delta (c p : ScanResult) :
    (compare_scans c p).overall_delta =
      c.total_scanned_bytes - p.total_scanned_bytes := rfl

/-- C2: every `TrendEntry` produced by `compare_scans` satisfies
`delta_bytes = current_bytes - previous_bytes`, and `delta_percent` is
`0` when `previous_bytes = 0` and `delta_bytes / previous_bytes * 100`
otherwise (exact rational arithmetic in place of Python floats). -/
theorem compare_scans_trend_fields (c p : ScanResult) (t : TrendEntry)
    (ht : t ∈ (compare_scans c p).trends) :
    t.delta_bytes = t.current_bytes - t.previous_bytes ∧
    (t.previous_bytes = 0 → t.delta_percent = 0) ∧
    (t.previous_bytes ≠ 0 →
      t.delta_percent = (t.delta_bytes : ℚ) / (t.previous_bytes : ℚ) * 100) := by
  obtain ⟨k, _, htk⟩ := mem_trends_iff.mp ht
  obtain ⟨cur, prev, _, _, rfl⟩ := trendOf_eq_some.mp htk
  refine ⟨rfl, ?_, ?_⟩
  · intro h0
    simp only [mkTrend] at h0 ⊢
    rw [if_pos h0]
  · intro hne
    simp only [mkTrend] at hne ⊢
    rw [if_neg hne]

/-- Concrete current snapshot for the C2 witness. -/
def snapTrendCur : ScanResult :=
  { scan_id := none, root_path := "/r", disk_info := ⟨0, 0, 0, 0, "", "", ""⟩,
    directories := [⟨"/r/x", 100, none⟩], large_files := [],
    total_scanned_bytes := 100 }

/-- Concrete previous snapshot for the C2 witness. -/
def snapTrendPrev : ScanResult :=
  { scan_id := none, root_path := "/r", disk_info := ⟨0, 0, 0, 0, "", "", ""⟩,
    directories := [⟨"/r/x", 80, none⟩], large_files := [],
    total_scanned_bytes := 80 }

/-- Witness for C2 at a concrete pair of snapshots: the matched
directory `x` grew from 80 to 100 bytes. -/
theorem compare_scans_trend_fields_witness :
    mkTrend ⟨"/r/x", 100, none⟩ ⟨"/r/x", 80, none⟩ ∈
      (compare_scans snapTrendCur snapTrendPrev).trends ∧
    ((mkTrend ⟨"/r/x", 100, none⟩ ⟨"/r/x", 80, none⟩).delta_bytes =
        (mkTrend ⟨"/r/x", 100, none⟩ ⟨"/r/x", 80, none⟩).current_bytes -
          (mkTrend ⟨"/r/x", 100, none⟩ ⟨"/r/x", 80, none⟩).previous_bytes ∧
     ((mkTrend ⟨"/r/x", 100, none⟩ ⟨"/r/x", 80, none⟩).previous_bytes = 0 →
        (mkTrend ⟨"/r/x", 100, none⟩ ⟨"/r/x", 80, none⟩).delta_percent = 0) ∧
     ((mkTrend ⟨"/r/x", 100, none⟩ ⟨"/r/x", 80, none⟩).previous_bytes ≠ 0 →
        (mkTrend ⟨"/r/x", 100, none⟩ ⟨"/r/x", 80, none⟩).delta_percent =
          ((mkTrend ⟨"/r/x", 100, none⟩ ⟨"/r/x", 80, none⟩).delta_bytes : ℚ) /
            ((mkTrend ⟨"/r/x", 100, none⟩ ⟨"/r/x", 80, none⟩).previous_bytes : ℚ) *
            100)) :=
  have hmem : mkTrend ⟨"/r/x", 100, none⟩ ⟨"/r/x", 80, none⟩ ∈
      (compare_scans snapTrendCur snapTrendPrev).trends :=
    mem_trends_iff.mpr ⟨"x", by decide,
      trendOf_eq_some.mpr ⟨⟨"/r/x", 100, none⟩, ⟨"/r/x", 80, none⟩,
        by decide, by decide, rfl⟩⟩
  ⟨hmem, compare_scans_trend_fields snapTrendCur snapTrendPrev _ hmem⟩

/-- C8: the trends list of every Comparison is sorted by non-increasing
absolute `delta_bytes`. -/
theorem compare_scans_trends_sorted (c p : ScanResult) :
    ((compare_scans c p).trends).Pairwise
      (fun a b => |b.delta_bytes| ≤ |a.delta_bytes|) :=
  pairwise_sortDesc (fun t : TrendEntry => |t.delta_bytes|) _

/-- C9: the base-name key of a directory entry is the last path segment
after stripping trailing separators (the definition of `dirKey`), and
the snapshot mapping built by `compare_scans` resolves each key to the
last entry of the source list with that key, so a later entry sharing a
base name silently overwrites an earlier one. -/
theorem buildDirMap_key_last_wins :
    (∀ d : DirEntry, dirKey d = basename (rstripSlashes d.path)) ∧
    (∀ (ds : List DirEntry) (k : String),
      dictGet (buildDirMap ds) k =
        (ds.filter (fun d => dirKey d == k)).getLast?) :=
  ⟨fun _ => rfl, dictGet_buildDirMap⟩

/-- C4: a base name present in exactly one snapshot's mapping lands in
exactly one of `new_dirs` / `removed_dirs` (`new_dirs` iff only in
current), never in `trends`; a base name present in both mappings lands
only in `trends`. -/
theorem compare_scans_partition (c p : ScanResult) (k₁ k₂ k₃ : String) :
    (hasDirKey c.directories k₁ → ¬ hasDirKey p.directories k₁ →
      (∃ d ∈ (compare_scans c p).new_dirs, dirKey d = k₁) ∧
      (∀ d ∈ (compare_scans c p).removed_dirs, dirKey d ≠ k₁) ∧
      (∀ t ∈ (compare_scans c p).trends, trendKey t ≠ k₁)) ∧
    (¬ hasDirKey c.directories k₂ → hasDirKey p.directories k₂ →
      (∃ d ∈ (compare_scans c p).removed_dirs, dirKey d = k₂) ∧
      (∀ d ∈ (compare_scans c p).new_dirs, dirKey d ≠ k₂) ∧
      (∀ t ∈ (compare_scans c p).trends, trendKey t ≠ k₂)) ∧
    (hasDirKey c.directories k₃ → hasDirKey p.directories k₃ →
      (∃ t ∈ (compare_scans c p).trends, trendKey t = k₃) ∧
      (∀ d ∈ (compare_scans c p).new_dirs, dirKey d ≠ k₃) ∧
      (∀ d ∈ (compare_scans c p).removed_dirs, dirKey d ≠ k₃)) := by
  refine ⟨fun h1 h2 => ?_, fun h1 h2 => ?_, fun h1 h2 => ?_⟩
  · obtain ⟨cur, hcur⟩ := Option.isSome_iff_exists.mp
      ((dictGet_isSome_iff c.directories k₁).mpr h1)
    have hp : dictGet (buildDirMap p.directories) k₁ = none :=
      dictGet_buildDirMap_none h2
    refine ⟨?_, ?_, ?_⟩
    · refine ⟨cur, mem_new_dirs_iff.mpr ⟨k₁, ?_, ?_⟩, ?_⟩
      · exact mem_allKeys.mpr (Or.inl ((mem_dictKeys_buildDirMap _ _).mpr h1))
      · exact newOf_eq_some.mpr ⟨hcur, hp⟩
      · exact (dictGet_buildDirMap_some hcur).2
    · intro d hd hcon
      obtain ⟨k', _, hrm⟩ := mem_removed_dirs_iff.mp hd
      obtain ⟨_, hpd⟩ := removedOf_eq_some.mp hrm
      have hk' : dirKey d = k' := (dictGet_buildDirMap_some hpd).2
      rw [hcon] at hk'
      rw [← hk'] at hpd
      rw [hp] at hpd
      exact Option.noConfusion hpd
    · intro t ht hcon
      obtain ⟨k', _, htr⟩ := mem_trends_iff.mp ht
      obtain ⟨cur', prev', hcd, hpd, rfl⟩ := trendOf_eq_some.mp htr
      have hk' : dirKey cur' = k' := (dictGet_buildDirMap_some hcd).2
      rw [trendKey_mkTrend] at hcon
      rw [hk'.symm.trans hcon] at hpd
      rw [hp] at hpd
      exact Option.noConfusion hpd
  · obtain ⟨prev, hprev⟩ := Option.isSome_iff_exists.mp
      ((dictGet_isSome_iff p.directories k₂).mpr h2)
    have hc : dictGet (buildDirMap c.directories) k₂ = none :=
      dictGet_buildDirMap_none h1
    refine ⟨?_, ?_, ?_⟩
    · refine ⟨prev, mem_removed_dirs_iff.mpr ⟨k₂, ?_, ?_⟩, ?_⟩
      · exact mem_allKeys.mpr (Or.inr ((mem_dictKeys_buildDirMap _ _).mpr h2))
      · exact removedOf_eq_some.mpr ⟨hc, hprev⟩
      · exact (dictGet_buildDirMap_some hprev).2
    · intro d hd hcon
      obtain ⟨k', _, hnw⟩ := mem_new_dirs_iff.mp hd
      obtain ⟨hcd, _⟩ := newOf_eq_some.mp hnw
      have hk' : dirKey d = k' := (dictGet_buildDirMap_some hcd).2
      rw [hcon] at hk'
      rw [← hk'] at hcd
      rw [hc] at hcd
      exact Option.noConfusion hcd
    · intro t ht hcon
      obtain ⟨k', _, htr⟩ := mem_trends_iff.mp ht
      obtain ⟨cur', prev', hcd, hpd, rfl⟩ := trendOf_eq_some.mp htr
      have hk' : dirKey cur' = k' := (dictGet_buildDirMap_some hcd).2
      rw [trendKey_mkTrend] at hcon
      rw [hk'.symm.trans hcon] at hcd
      rw [hc] at hcd
      exact Option.noConfusion hcd
  · obtain ⟨cur, hcur⟩ := Option.isSome_iff_exists.mp
      ((dictGet_isSome_iff c.directories k₃).mpr h1)
    obtain ⟨prev, hprev⟩ := Option.isSome_iff_exists.mp
      ((dictGet_isSome_iff p.directories k₃).mpr h2)
    refine ⟨?_, ?_, ?_⟩
    · refine ⟨mkTrend cur prev, mem_trends_iff.mpr ⟨k₃, ?_, ?_⟩, ?_⟩
      · exact mem_allKeys.mpr (Or.inl ((mem_dictKeys_buildDirMap _ _).mpr h1))
      · exact trendOf_eq_some.mpr ⟨cur, prev, hcur, hprev, rfl⟩
      · rw [trendKey_mkTrend]
        exact (dictGet_buildDirMap_some hcur).2
    · intro d hd hcon
      obtain ⟨k', _, hnw⟩ := mem_new_dirs_iff.mp hd
      obtain ⟨hcd, hpd⟩ := newOf_eq_some.mp hnw
      have hk' : dirKey d = k' := (dictGet_buildDirMap_some hcd).2
      rw [hcon] at hk'
      rw [← hk'] at hpd
      rw [hprev] at hpd
      exact Option.noConfusion hpd
    · intro d hd hcon
      obtain ⟨k', _, hrm⟩ := mem_removed_dirs_iff.mp hd
      obtain ⟨hcd, hpd⟩ := removedOf_eq_some.mp hrm
      have hk' : dirKey d = k' := (dictGet_buildDirMap_some hpd).2
      rw [hcon] at hk'
      rw [← hk'] at hcd
      rw [hcur] at hcd
      exact Option.noConfusion hcd

/-- Concrete current snapshot for the C4 witness: directories `A`, `D`. -/
def snapCur : ScanResult :=
  { scan_id := none, root_path := "/r", disk_info := ⟨0, 0, 0, 0, "", "", ""⟩,
    directories := [⟨"/r/A", 100, none⟩, ⟨"/r/D", 30, none⟩],
    large_files := [], total_scanned_bytes := 130 }

/-- Concrete previous snapshot for the C4 witness: directories `A`, `C`. -/
def snapPrev : ScanResult :=
  { scan_id := none, root_path := "/r", disk_info := ⟨0, 0, 0, 0, "", "", ""⟩,
    directories := [⟨"/r/A", 80, none⟩, ⟨"/r/C", 50, none⟩],
    large_files := [], total_scanned_bytes := 130 }

/-- Witness for C4: current has `A` and `D`, previous has `A` and `C`, so
`D` is new-only, `C` is removed-only and `A` is matched. -/
theorem compare_scans_partition_witness :
    ((∃ d ∈ (compare_scans snapCur snapPrev).new_dirs, dirKey d = "D") ∧
     (∀ d ∈ (compare_scans snapCur snapPrev).removed_dirs, dirKey d ≠ "D") ∧
     (∀ t ∈ (compare_scans snapCur snapPrev).trends, trendKey t ≠ "D")) ∧
    ((∃ d ∈ (compare_scans snapCur snapPrev).removed_dirs, dirKey d = "C") ∧
     (∀ d ∈ (compare_scans snapCur snapPrev).new_dirs, dirKey d ≠ "C") ∧
     (∀ t ∈ (compare_scans snapCur snapPrev).trends, trendKey t ≠ "C")) ∧
    ((∃ t ∈ (compare_scans snapCur snapPrev).trends, trendKey t = "A") ∧
     (∀ d ∈ (compare_scans snapCur snapPrev).new_dirs, dirKey d ≠ "A") ∧
     (∀ d ∈ (compare_scans snapCur snapPrev).removed_dirs, dirKey d ≠ "A")) :=
  ⟨(compare_scans_partition snapCur snapPrev "D" "C" "A").1
      (by decide) (by decide),
   (compare_scans_partition snapCur snapPrev "D" "C" "A").2.1
      (by decide) (by decide),
   (compare_scans_partition snapCur snapPrev "D" "C" "A").2.2
      (by decide) (by decide)⟩

theorem pySliceTo_nil (k : Int) : pySliceTo k ([] : List α) = [] := by
  unfold pySliceTo
  split <;> simp

/-- C10: for every statistics result and every enrichment outcome,
`get_disk_info` reports `used_bytes + free_bytes = total_bytes` exactly,
because `used` is defined as `total - free` from the same `statvfs`
call. -/
theorem get_disk_info_reconciles (st : Statvfs) (dk : DiskutilResult) :
    (get_disk_info st dk).used_bytes + (get_disk_info st dk).free_bytes =
      (get_disk_info st dk).total_bytes := by
  show ((st.f_frsize * st.f_blocks : Nat) : Int) -
      ((st.f_frsize * st.f_bfree : Nat) : Int) +
      ((st.f_frsize * st.f_bfree : Nat) : Int) =
      ((st.f_frsize * st.f_blocks : Nat) : Int)
  ring

/-- C6: when the `du` subordinate process times out, `scan_directories`
builds its result from the partial output captured before the forced
kill, exactly as it would from completed output; concretely, partial
output holding two parseable rows yields those two entries, not an empty
sequence. -/
theorem scan_directories_timeout_salvages :
    (∀ (root : String) (depth top_n : Int) (s : String),
      scan_directories root depth top_n (.timedOut s) =
        scan_directories root depth top_n (.completed s)) ∧
    scan_directories "/r" 1 20 (.timedOut "100\t/r/a\n50\t/r/b") =
      [{ path := "/r/a", size_bytes := 102400, file_count := none },
       { path := "/r/b", size_bytes := 51200, file_count := none }] :=
  ⟨fun _ _ _ _ => rfl, by decide⟩

/-- C5: the fast `mdfind` tier reports unavailable on timeout, tool
absence and non-zero exit; when it is available the result does not
depend on the fallback environment at all (the fallback is not invoked),
an available-but-empty fast tier yields an empty final result, and when
the fast tier is unavailable the result is exactly the processed
fallback-tier result. -/
theorem find_large_files_fallback_iff (root : String)
    (min_size_mb top_n : Int) (g : String → Option Int)
    (fr fr' md₁ md₂ md₃ : RunResult) (rc : Int) (out : String) :
    (find_large_files_mdfind root (min_size_mb * 1024 * 1024) .timedOut g = none ∧
     find_large_files_mdfind root (min_size_mb * 1024 * 1024) .failed g = none ∧
     (rc ≠ 0 →
       find_large_files_mdfind root (min_size_mb * 1024 * 1024)
         (.completed rc out) g = none)) ∧
    ((find_large_files_mdfind root (min_size_mb * 1024 * 1024) md₁ g).isSome →
      find_large_files root min_size_mb top_n md₁ fr g =
        find_large_files root min_size_mb top_n md₁ fr' g) ∧
    (find_large_files_mdfind root (min_size_mb * 1024 * 1024) md₂ g = some [] →
      find_large_files root min_size_mb top_n md₂ fr g = .ok []) ∧
    (find_large_files_mdfind root (min_size_mb * 1024 * 1024) md₃ g = none →
      find_large_files root min_size_mb top_n md₃ fr g =
        (find_large_files_find root min_size_mb fr g).map
          (fun fs => pySliceTo top_n (sortDesc (fun f => f.size_bytes) fs))) := by
  refine ⟨⟨rfl, rfl, fun h => ?_⟩, fun h => ?_, fun h => ?_, fun h => ?_⟩
  · simp [find_large_files_mdfind, h]
  · obtain ⟨fs, hfs⟩ := Option.isSome_iff_exists.mp h
    simp only [find_large_files, hfs]
  · simp only [find_large_files, h, sortDesc_nil, pySliceTo_nil]
  · simp only [find_large_files, h]
    cases hff : find_large_files_find root min_size_mb fr g <;>
      simp [Except.map]

/-- Witness for C5 at concrete environments: a fast tier that completed
with return code 0 and empty output, and an unavailable fast tier over a
timed-out fallback. -/
theorem find_large_files_fallback_iff_witness :
    (find_large_files "/r" 100 10 (.completed 0 "") .timedOut (fun _ => none) =
       find_large_files "/r" 100 10 (.completed 0 "") .failed (fun _ => none)) ∧
    (find_large_files "/r" 100 10 (.completed 0 "") .timedOut (fun _ => none) =
       .ok []) ∧
    (find_large_files "/r" 100 10 .failed .timedOut (fun _ => none) =
       (find_large_files_find "/r" 100 .timedOut (fun _ => none)).map
         (fun fs => pySliceTo 10 (sortDesc (fun f => f.size_bytes) fs))) ∧
    (1 : Int) ≠ 0 ∧
    find_large_files_mdfind "/r" (100 * 1024 * 1024) (.completed 1 "/r/f") (fun _ => none) = none :=
  ⟨(find_large_files_fallback_iff "/r" 100 10 (fun _ => none) .timedOut .failed
      (.completed 0 "") (.completed 0 "") .failed 1 "/r/f").2.1 (by rfl),
   (find_large_files_fallback_iff "/r" 100 10 (fun _ => none) .timedOut .failed
      (.completed 0 "") (.completed 0 "") .failed 1 "/r/f").2.2.1 (by rfl),
   (find_large_files_fallback_iff "/r" 100 10 (fun _ => none) .timedOut .failed
      (.completed 0 "") (.completed 0 "") .failed 1 "/r/f").2.2.2 rfl,
   by decide,
   (find_large_files_fallback_iff "/r" 100 10 (fun _ => none) .timedOut .failed
      (.completed 0 "") (.completed 0 "") .failed 1 "/r/f").1.2.2 (by decide)⟩

/-- C7 counterexample: the claim quantifies over every `topN`, but
`top_n` is a Python `int` and `entries[:top_n]` with a negative bound
returns a list longer than `top_n` items; at `top_n = -1` with one
parsed `du` row the returned list has length `0 > -1`, so "length at
most topN" fails. -/
theorem scan_directories_negative_topn :
    ¬ (((scan_directories "/r" 1 (-1) (.completed "8\t/r/x")).length : Int) ≤ -1) := by
  decide

/-- C7 amended: for every nonnegative `topN` and `fileCount` (and every
root, depth, minFileSizeMB and probe environment), `scan_directories`
returns at most `topN` entries, `find_large_files` returns at most
`fileCount` entries whenever it returns at all, and both lists are
sorted with non-increasing `size_bytes`. -/
theorem scan_outputs_bounded_sorted (root : String)
    (depth top_n file_count min_size_mb : Int) (duRes : PopenResult)
    (mdRes findRes : RunResult) (g : String → Option Int)
    (htop : 0 ≤ top_n) (hfc : 0 ≤ file_count) :
    (((scan_directories root depth top_n duRes).length : Int) ≤ top_n ∧
      (scan_directories root depth top_n duRes).Pairwise
        (fun a b => b.size_bytes ≤ a.size_bytes)) ∧
    (∀ fs, find_large_files root min_size_mb file_count mdRes findRes g = .ok fs →
      ((fs.length : Int) ≤ file_count ∧
        fs.Pairwise (fun a b => b.size_bytes ≤ a.size_bytes))) := by
  constructor
  · cases duRes with
    | failed => exact ⟨by simpa using htop, List.Pairwise.nil⟩
    | completed stdout =>
      exact ⟨length_pySliceTo_le htop _,
        pairwise_pySliceTo _ (pairwise_sortDesc (fun e : DirEntry => e.size_bytes) _)⟩
    | timedOut partialOut =>
      exact ⟨length_pySliceTo_le htop _,
        pairwise_pySliceTo _ (pairwise_sortDesc (fun e : DirEntry => e.size_bytes) _)⟩
  · intro fs hfs
    rw [find_large_files] at hfs
    cases hmd : find_large_files_mdfind root (min_size_mb * 1024 * 1024) mdRes g with
    | some files =>
      rw [hmd] at hfs
      obtain rfl : pySliceTo file_count
          (sortDesc (fun f => f.size_bytes) files) = fs :=
        Except.ok.inj hfs
      exact ⟨length_pySliceTo_le hfc _,
        pairwise_pySliceTo _ (pairwise_sortDesc (fun f : FileEntry => f.size_bytes) _)⟩
    | none =>
      rw [hmd] at hfs
      cases hff : find_large_files_find root min_size_mb findRes g with
      | error e => rw [hff] at hfs; exact Except.noConfusion hfs
      | ok files =>
        rw [hff] at hfs
        obtain rfl : pySliceTo file_count
            (sortDesc (fun f => f.size_bytes) files) = fs :=
          Except.ok.inj hfs
        exact ⟨length_pySliceTo_le hfc _,
          pairwise_pySliceTo _ (pairwise_sortDesc (fun f : FileEntry => f.size_bytes) _)⟩

/-- Witness for the amended C7: `topN = 2` over three `du` rows and
`fileCount = 1` over two `mdfind` hits. -/
theorem scan_outputs_bounded_sorted_witness :
    (((scan_directories "/r" 1 2
        (.completed "8\t/r/x\n4\t/r/y\n16\t/r/z")).length : Int) ≤ 2 ∧
      (scan_directories "/r" 1 2
        (.completed "8\t/r/x\n4\t/r/y\n16\t/r/z")).Pairwise
        (fun a b => b.size_bytes ≤ a.size_bytes)) ∧
    ((((pySliceTo 1 (sortDesc (fun f => f.size_bytes)
          (statPaths (fun p => if p = "/r/f1" then some 5 else some 9)
            "/r/f1\n/r/f2"))) : List FileEntry).length : Int) ≤ 1 ∧
      (pySliceTo 1 (sortDesc (fun f => f.size_bytes)
          (statPaths (fun p => if p = "/r/f1" then some 5 else some 9)
            "/r/f1\n/r/f2"))).Pairwise
        (fun a b => b.size_bytes ≤ a.size_bytes)) :=
  ⟨(scan_outputs_bounded_sorted "/r" 1 2 1 100
      (.completed "8\t/r/x\n4\t/r/y\n16\t/r/z")
      (.completed 0 "/r/f1\n/r/f2") .failed
      (fun p => if p = "/r/f1" then some 5 else some 9)
      (by decide) (by decide)).1,
   (scan_outputs_bounded_sorted "/r" 1 2 1 100
      (.completed "8\t/r/x\n4\t/r/y\n16\t/r/z")
      (.completed 0 "/r/f1\n/r/f2") .failed
      (fun p => if p = "/r/f1" then some 5 else some 9)
      (by decide) (by decide)).2
     (pySliceTo 1 (sortDesc (fun f => f.size_bytes)
        (statPaths (fun p => if p = "/r/f1" then some 5 else some 9)
          "/r/f1\n/r/f2"))) rfl⟩

/-- C3 evaluated at the failing input: with the fast finder tier timing
out and the `find` binary absent (`subprocess.run` raising
`FileNotFoundError`, which `_find_large_files_find` does not catch —
unlike every other probe, which catches `Exception` broadly), the
exception propagates through `find_large_files` and the thread-pool
`Future.result()` into `scan`, which raises instead of returning a
degraded Snapshot. -/
theorem scan_raises_when_find_binary_missing :
    scan "/home/u" "/data" 1 20 10 100 ⟨4096, 1000, 500, 400⟩ .failed
      (.completed "16\t/data/a") .timedOut .failed (fun _ => none) =
      .error () := rfl

end Dusk
